import Mathlib

/-!
Verification of the isopod LED-art controller core.

Shallow embedding of the Rust sources into Lean 4:
* `src/isopod/src/patterns/beans/bean_sim.rs` — the 1-D bean physics solver;
* `src/isopod/src/circular_buffer.rs` — the moving-average ring buffer;
* `src/isopod/src/motion_sensor.rs` — shock / creep detection;
* `src/isopod/src/pattern_manager.rs` and `src/isopod/src/patterns/mod.rs`
  — orientation-based pattern selection and the pattern registry;
* `src/isopod/src/led.rs` — the LED driver thread's power gating and
  power-limit scaling;
* `src/isopod/src/control_server.rs` — the shared `Controls` state and the
  command handler.

`f32` values of the source are modelled as exact rationals (`ℚ`); the
square roots used by the motion sensor are modelled in `ℝ`.  Rust `panic!`
/ `assert!` aborts are modelled by `Option` results (`none` = abort).
-/

namespace Isopod

/-! ## bean_sim.rs -/

def TUBE_LEN : ℕ := 118

def NUM_BEANS : ℕ := 41

def STEPS_PER_FRAME : ℕ := 10

/-- `DT = 1.0 / (STEPS_PER_FRAME as f32)` -/
def DT : ℚ := 1 / (STEPS_PER_FRAME : ℚ)

/-- One bean: continuous position, velocity, RGB colour. -/
structure Bean where
  position : ℚ
  velocity : ℚ
  colour : ℕ × ℕ × ℕ
deriving DecidableEq, Repr

/-- A tube of beans (`struct BeanTube { beans: Vec<Bean> }`). -/
structure BeanTube where
  beans : List Bean
deriving DecidableEq, Repr

/-- `BeanTube::new`: beans packed in the middle of the tube. -/
def BeanTube.new : BeanTube :=
  let firstBeanPos : ℚ := (TUBE_LEN : ℚ) / 2 - (NUM_BEANS : ℚ) / 2
  ⟨(List.range NUM_BEANS).map fun i =>
    ⟨firstBeanPos + (i : ℚ), 0, (255, 255, 255)⟩⟩

/-- The `epsilon` tolerance of `BeanTube::sanity_check`. -/
def epsilon : ℚ := 1 / 10

/-- The pairwise ordering checks of `BeanTube::sanity_check`: the
peekable-iterator loop asserting
`next_bean.position - bean.position > 1.0 - epsilon` for each consecutive
pair. -/
def sanityPairs : List Bean → Bool
  | [] => true
  | [_] => true
  | b :: nextBean :: rest =>
    decide (1 - epsilon < nextBean.position - b.position) &&
    sanityPairs (nextBean :: rest)

/-- `BeanTube::sanity_check` (a run of `assert!`s): returns `true` iff all
the asserted conditions hold. -/
def BeanTube.sanityCheck (t : BeanTube) : Bool :=
  decide (t.beans.length = NUM_BEANS) &&
  decide (t.beans.length < TUBE_LEN) &&
  sanityPairs t.beans &&
  decide (∀ b ∈ t.beans,
    -epsilon < b.position ∧ b.position < (TUBE_LEN : ℚ) - 1 + epsilon)

/-- The body of the `for i in 0..NUM_BEANS` loop of `BeanTube::sub_step`
for one bean.  `rnd` is the value drawn by `rand::random::<f32>()` for
this bean.  The loop mutates `self.beans[i]` in place while iterating in
index order, so when bean `i` is processed, `bean_to_left(i)` (= `leftBean`)
is the already-updated bean `i - 1` and `bean_to_right(i)` (= `rightBean`)
is the not-yet-updated bean `i + 1`.  `leftBean`/`rightBean` are `none`
exactly for the first/last bean: `sanity_check` at `sub_step` entry has
already asserted `beans.len() == NUM_BEANS`, so `i == 0` iff there is no
bean to the left and `i == NUM_BEANS - 1` iff there is no bean to the
right. -/
def subStepBean (acceleration : ℚ) (rnd : ℚ) (leftBean : Option Bean)
    (b : Bean) (rightBean : Option Bean) : Bean :=
  let fuzzMagnitude := |acceleration|
  let fuzz := fuzzMagnitude * (2 * rnd - 1)
  let velocity := b.velocity + (acceleration + fuzz) * DT
  let nextPosition := b.position + velocity * DT
  let collided : ℚ × ℚ :=
    if 0 < velocity then
      -- look right
      match rightBean with
      | some rb =>
        if rb.position - nextPosition < 1 then
          (rb.position - 1, if 0 < rb.velocity then rb.velocity else 0)
        else (nextPosition, velocity)
      | none =>
        if (TUBE_LEN : ℚ) - 1 - nextPosition < 1 then ((TUBE_LEN : ℚ) - 1, 0)
        else (nextPosition, velocity)
    else if velocity < 0 then
      -- look left
      match leftBean with
      | some lb =>
        if nextPosition - lb.position < 1 then
          (lb.position + 1, if lb.velocity < 0 then lb.velocity else 0)
        else (nextPosition, velocity)
      | none =>
        if nextPosition < 0 then (0, 0)
        else (nextPosition, velocity)
    else (nextPosition, velocity)
  { b with position := collided.1, velocity := collided.2 }

/-- The whole `for i in 0..NUM_BEANS` loop of `BeanTube::sub_step`:
in-place iteration in index order, carrying the already-updated left
neighbour and peeking at the not-yet-updated right neighbour.  `i` is the
bean index (used only to select the random draw `rnd i`). -/
def subStepPass (acceleration : ℚ) (rnd : ℕ → ℚ) :
    ℕ → Option Bean → List Bean → List Bean
  | _, _, [] => []
  | i, leftBean, b :: rest =>
    let b2 := subStepBean acceleration (rnd i) leftBean b rest.head?
    b2 :: subStepPass acceleration rnd (i + 1) (some b2) rest

/-- `BeanTube::sub_step`.  `rnd i` is the random draw for bean `i`; a
failing `sanity_check` assertion (entry or exit) is a panic, i.e. `none`. -/
def BeanTube.subStep (t : BeanTube) (acceleration : ℚ) (rnd : ℕ → ℚ) :
    Option BeanTube :=
  if t.sanityCheck then
    let t2 : BeanTube := ⟨subStepPass acceleration rnd 0 none t.beans⟩
    if t2.sanityCheck then some t2 else none
  else none

/-- `BeanTube::step`: `STEPS_PER_FRAME` sub-steps at `acceleration / 100`.
`rnd k i` is the random draw for bean `i` in sub-step `k`. -/
def BeanTube.step (t : BeanTube) (acceleration : ℚ) (rnd : ℕ → ℕ → ℚ) :
    Option BeanTube :=
  (List.range STEPS_PER_FRAME).foldlM
    (fun cur k => BeanTube.subStep cur (acceleration / 100) (rnd k)) t

/-- `f32::round`: round half away from zero. -/
def roundF32 (q : ℚ) : ℤ :=
  if q < 0 then -(Int.floor (-q + 1 / 2)) else Int.floor (q + 1 / 2)

/-- `f32::round(...) as usize`: Rust float-to-int casts saturate, so
negative rounds map to 0. -/
def roundSlot (q : ℚ) : ℕ := (roundF32 q).toNat

/-- `BeanTube::bean_at_pos`: first bean (in index order) whose rounded
position equals the requested slot. -/
def BeanTube.beanAtPos (t : BeanTube) (position : ℕ) : Option Bean :=
  t.beans.find? fun b => roundSlot b.position == position

/-- `BeanTube::get_colour`. -/
def BeanTube.getColour (t : BeanTube) (i : ℕ) : ℕ × ℕ × ℕ :=
  match t.beanAtPos i with
  | some b => b.colour
  | none => (0, 0, 0)

/-- `BeanTube::is_stacked`.  The source unwraps `beans.last()` and indexes
`beans[0]`; the empty-tube panic case is modelled as `false` (it is
unreachable: every constructed tube has `NUM_BEANS` beans). -/
def BeanTube.isStacked (t : BeanTube) : Bool :=
  match t.beans.getLast?, t.beans.get? 0 with
  | some lastBean, some firstBean =>
    decide (lastBean.position < (NUM_BEANS : ℚ) - 1 / 2) ||
    decide (firstBean.position > ((TUBE_LEN - NUM_BEANS : ℕ) : ℚ) - 1 / 2)
  | _, _ => false

/-! ### Scaled mirror of the zero-fuzz bean run (test scenario S1)

The concrete run of claim C2 starts from beans at positions `0..40`, uses
`step(9.81)` and the random draw fixed at `1/2` (zero fuzz).  In that run
every position is a multiple of `10⁻⁶` in `[0, 117]` and every velocity a
non-negative multiple of `10⁻⁵`, so the run can be mirrored exactly over
`ℕ`, storing `position·10⁶ + 2·10⁶` and `velocity·10⁵`.  (Rational
arithmetic itself does not reduce in the kernel, `Nat` arithmetic does.)
The lemmas `subStep_eq_nSubStep` … below prove the mirror exact, so the
heavy evaluation can happen on the `ℕ` side. -/

structure NBean where
  position : ℕ
  velocity : ℕ
deriving DecidableEq, Repr

/-- Decode a mirrored bean back to the exact rational bean (all beans of
the run are white). -/
def nbeanToBean (nb : NBean) : Bean :=
  ⟨(nb.position : ℚ) / 1000000 - 2, (nb.velocity : ℚ) / 100000, (255, 255, 255)⟩

/-- `subStepBean` at acceleration `9.81/100` and random draw `1/2`,
mirrored over the scaled naturals.  Velocities in this run are always
non-negative, so only the look-right branch can fire. -/
def nUpd (b : NBean) (rightBean : Option NBean) : NBean :=
  let velocity := b.velocity + 981
  let nextPosition := b.position + velocity
  match rightBean with
  | some rb =>
    if rb.position < nextPosition + 1000000 then
      ⟨rb.position - 1000000, if 0 < rb.velocity then rb.velocity else 0⟩
    else ⟨nextPosition, velocity⟩
  | none =>
    if 119000000 < nextPosition + 1000000 then ⟨119000000, 0⟩
    else ⟨nextPosition, velocity⟩

/-- `subStepPass` mirrored over the scaled naturals. -/
def nPass : List NBean → List NBean
  | [] => []
  | b :: rest => nUpd b rest.head? :: nPass rest

/-- `sanityPairs` mirrored over the scaled naturals. -/
def nPairs : List NBean → Bool
  | [] => true
  | [_] => true
  | b :: nextBean :: rest =>
    decide (b.position + 900000 < nextBean.position) && nPairs (nextBean :: rest)

/-- `BeanTube.sanityCheck` mirrored over the scaled naturals. -/
def nSanity (l : List NBean) : Bool :=
  decide (l.length = NUM_BEANS) &&
  decide (l.length < TUBE_LEN) &&
  nPairs l &&
  decide (∀ b ∈ l, 1900000 < b.position ∧ b.position < 119100000)

/-- `BeanTube.subStep` mirrored over the scaled naturals. -/
def nSubStep (l : List NBean) : Option (List NBean) :=
  if nSanity l then
    let l2 := nPass l
    if nSanity l2 then some l2 else none
  else none

/-- `BeanTube.step` mirrored over the scaled naturals. -/
def nStep (l : List NBean) : Option (List NBean) :=
  (List.range STEPS_PER_FRAME).foldlM (fun cur _ => nSubStep cur) l

/-- Scenario S1 start state, mirrored: positions `0..40`, velocities 0. -/
def nInit : List NBean :=
  (List.range NUM_BEANS).map fun i => ⟨i * 1000000 + 2000000, 0⟩

/-- `n` frames of the mirrored S1 run. -/
def nRun : ℕ → Option (List NBean)
  | 0 => some nInit
  | n + 1 => (nRun n).bind nStep

/-- Scenario S1 final state, mirrored: positions `77..117`, velocities 0. -/
def nFinal : List NBean :=
  (List.range NUM_BEANS).map fun i => ⟨(79 + i) * 1000000, 0⟩

/-- Scenario S1 of the spec: a tube with 41 beans at positions `0..40`. -/
def tubeS1init : BeanTube :=
  ⟨(List.range NUM_BEANS).map fun i : ℕ => ⟨(i : ℚ), 0, (255, 255, 255)⟩⟩

/-- The state claimed for the end of scenario S1: beans at `77..117`, all
velocities zero. -/
def tubeS1final : BeanTube :=
  ⟨(List.range NUM_BEANS).map fun i : ℕ => ⟨77 + (i : ℚ), 0, (255, 255, 255)⟩⟩

/-- `n` frames of scenario S1 on the real embedding: repeated
`step(9.81)` with the random draw fixed at `1/2`, i.e. zero fuzz. -/
def runS1 : ℕ → Option BeanTube
  | 0 => some tubeS1init
  | n + 1 => (runS1 n).bind fun t => t.step (981 / 100) (fun _ _ => 1 / 2)

/-- Decode a whole mirrored tube back into the exact embedding. -/
def nTube (l : List NBean) : BeanTube :=
  ⟨l.map nbeanToBean⟩

/-! ## common_structs.rs / main.rs -/

def LEDS_PER_SPINE : ℕ := 59

def SPINES : ℕ := 12

/-- `LedUpdate`: one RGB triple per LED per spine. -/
structure LedUpdate where
  spines : List (List (ℕ × ℕ × ℕ))
deriving DecidableEq, Repr

/-- `ImuReadings` (f32 components modelled as exact rationals). -/
structure ImuReadings where
  xa : ℚ
  ya : ℚ
  za : ℚ
  xg : ℚ
  yg : ℚ
  zg : ℚ
deriving DecidableEq, Repr

instance : Zero ImuReadings := ⟨⟨0, 0, 0, 0, 0, 0⟩⟩

/-- `AddAssign for ImuReadings`: componentwise. -/
instance : Add ImuReadings :=
  ⟨fun a b => ⟨a.xa + b.xa, a.ya + b.ya, a.za + b.za,
               a.xg + b.xg, a.yg + b.yg, a.zg + b.zg⟩⟩

/-- `Div<f32> for ImuReadings`: componentwise scalar division. -/
instance : HDiv ImuReadings ℚ ImuReadings :=
  ⟨fun a c => ⟨a.xa / c, a.ya / c, a.za / c, a.xg / c, a.yg / c, a.zg / c⟩⟩

/-- `ImuReadings::accel_magnitude`: `sqrt(xa² + ya² + za²)` (the square
root forces the model into `ℝ`). -/
noncomputable def ImuReadings.accelMagnitude (r : ImuReadings) : ℝ :=
  Real.sqrt ((r.xa : ℝ) * (r.xa : ℝ) + (r.ya : ℝ) * (r.ya : ℝ) +
    (r.za : ℝ) * (r.za : ℝ))

/-- `ImuReadings::gyro_magnitude`: `sqrt(xg + yg + zg)` — deliberately the
square root of the *sum of signed components*, not the norm. -/
noncomputable def ImuReadings.gyroMagnitude (r : ImuReadings) : ℝ :=
  Real.sqrt ((r.xg : ℝ) + (r.yg : ℝ) + (r.zg : ℝ))

/-! ## circular_buffer.rs -/

/-- `CircularBuffer<T>`. -/
structure CircularBuffer (T : Type) where
  buffer : List T
  ptr : ℕ
  capacity : ℕ

/-- `CircularBuffer::new` (the source asserts `capacity > 0`; theorems
about it carry that as a hypothesis). -/
def CircularBuffer.new (T : Type) (capacity : ℕ) : CircularBuffer T :=
  ⟨[], 0, capacity⟩

/-- `CircularBuffer::push`. -/
def CircularBuffer.push {T : Type} (c : CircularBuffer T) (value : T) :
    CircularBuffer T :=
  if c.buffer.length < c.capacity then
    { c with buffer := c.buffer ++ [value] }
  else
    { c with buffer := c.buffer.set c.ptr value,
             ptr := (c.ptr + 1) % c.capacity }

/-- `n` consecutive pushes of the same value. -/
def CircularBuffer.pushTimes {T : Type} (c : CircularBuffer T) (value : T) :
    ℕ → CircularBuffer T
  | 0 => c
  | n + 1 => (c.pushTimes value n).push value

/-- `iter().cloned().sum::<T>()` where `T`'s `Sum` folds `+=` from the
default value (as `impl Sum for ImuReadings` does). -/
def listSum {T : Type} [Zero T] [Add T] (l : List T) : T :=
  l.foldl (fun acc x => acc + x) 0

/-- `CircularBuffer::mean`: `Some(sum / capacity)` once full. -/
def CircularBuffer.mean {T : Type} [Zero T] [Add T] [HDiv T ℚ T]
    (c : CircularBuffer T) : Option T :=
  if c.buffer.length = c.capacity then
    some (listSum c.buffer / (c.capacity : ℚ))
  else none

/-- `CircularBuffer::head`: most recently written value, once full. -/
def CircularBuffer.head {T : Type} (c : CircularBuffer T) : Option T :=
  if c.buffer.length = c.capacity then
    c.buffer.get? (if c.ptr = 0 then c.capacity - 1 else c.ptr - 1)
  else none

/-- `CircularBuffer::tail`: oldest value, once full. -/
def CircularBuffer.tail {T : Type} (c : CircularBuffer T) : Option T :=
  if c.buffer.length = c.capacity then c.buffer.get? c.ptr else none

/-- Modelled from the spec: `clear()` empties the circular buffer.
`MotionSensor::detect_fast_movement` calls `self.slow_lpf_buffer.clear()`
but `src/circular_buffer.rs` does not contain the `clear` method (the
file predates it); §4.2 of the spec specifies \x22`clear()` empties it\x22. -/
def CircularBuffer.clear {T : Type} (c : CircularBuffer T) :
    CircularBuffer T :=
  { c with buffer := [], ptr := 0 }

/-! ## motion_sensor.rs -/

def FAST_LPF_LEN : ℕ := 15

def SLOW_LPF_LEN : ℕ := 600

noncomputable def GRAVITY_MS : ℝ := 981 / 100

noncomputable def ACCEL_SHOCK_THRESH : ℝ := 1 / 2

def GYRO_SHOCK_THRESH : ℝ := 1

/-- `MotionSensor`. -/
structure MotionSensor where
  fast_lpf_buffer : CircularBuffer ImuReadings
  slow_lpf_buffer : CircularBuffer ImuReadings
  samples_since_last_movement : ℕ

/-- `MotionSensor::new`. -/
def MotionSensor.new : MotionSensor :=
  ⟨CircularBuffer.new ImuReadings FAST_LPF_LEN,
   CircularBuffer.new ImuReadings SLOW_LPF_LEN, 0⟩

open Classical in
/-- `MotionSensor::detect_fast_movement`: returns the detection flag and
the (possibly mutated: slow buffer cleared) sensor state. -/
noncomputable def MotionSensor.detectFastMovement (s : MotionSensor) :
    Bool × MotionSensor :=
  match s.fast_lpf_buffer.mean with
  | some fastAverage =>
    let accelShock : Prop :=
      |fastAverage.accelMagnitude - GRAVITY_MS| > ACCEL_SHOCK_THRESH
    let gyroShock : Prop := fastAverage.gyroMagnitude > GYRO_SHOCK_THRESH
    if accelShock ∨ gyroShock then
      (true, { s with slow_lpf_buffer := s.slow_lpf_buffer.clear })
    else (false, s)
  | none => (false, s)

/-! ## patterns/mod.rs — the pattern registry -/

/-- The keys inserted into the `PATTERNS` HashMap, in source order.  Note
`shock::Shock::NAME` is the string `"zoom"`, the same key as
`zoom::Zoom::NAME`. -/
def PATTERNS : List String :=
  ["zoom", "zoom", "strip_test", "searchlight", "glitch", "test_blackout",
   "starfield", "colourfield", "colour_wipes"]

/-- `pattern_by_name`: look the name up among the registry keys; `some`
holds the registered key (standing in for the constructor `fn`). -/
def patternByName (name : String) : Option String :=
  PATTERNS.find? fun patternName => patternName == name

/-! ## pattern_manager.rs — orientation-based pattern selection -/

/-- `select_stationary_pattern`, up to the final `.unwrap()()`: returns
the registry lookup for the name chosen by the accelerometer sign zone.
The source unwraps the `Option`, so `none` is a panic. -/
def selectStationaryPattern (imuAverage : ImuReadings) : Option String :=
  let xSign := decide (imuAverage.xa ≥ 0)
  let ySign := decide (imuAverage.ya ≥ 0)
  let zSign := decide (imuAverage.za ≥ 0)
  match xSign, ySign, zSign with
  | false, false, false => patternByName "zoom"
  | false, false, true => patternByName "starfield"
  | false, true, false => patternByName "colourfield"
  | false, true, true => patternByName "glitch"
  | true, false, false => patternByName "colour_wipes"
  | true, false, true => patternByName "wormholes"
  | true, true, false => patternByName "sparkles"
  | true, true, true => patternByName "colour_wipes"

/-! ## led.rs -/

/-- Does the frame consist only of `[0, 0, 0]` pixels? (the power-gating
test of `led_thread`). -/
def allPixelsOff (ledUpdate : LedUpdate) : Bool :=
  ledUpdate.spines.all fun leds => leds.all fun led => led == (0, 0, 0)

/-- The state the LED driver thread carries across frames. -/
structure LedThreadState where
  hasController : Bool
  enablePinHigh : Bool
  pwmParkedHigh : Bool
  blackFrames : ℕ
deriving DecidableEq, Repr

/-- What the processing of one frame did. -/
structure LedFrameEffect where
  blackoutRender : Bool
  rendered : Bool
deriving DecidableEq, Repr

/-- One iteration of the `led_thread` loop body on a received frame
(power-gating part; `rendered` records whether the final
`controller.render()` of the frame data ran, `blackoutRender` the extra
all-zero render emitted when the controller is being torn down). -/
def ledFrameStep (s : LedThreadState) (ledUpdate : LedUpdate) :
    LedThreadState × LedFrameEffect :=
  let blackFrames :=
    if allPixelsOff ledUpdate then
      if s.blackFrames < 3 then s.blackFrames + 1 else s.blackFrames
    else 0
  let ledsEnabled := blackFrames < 3
  if ledsEnabled ∧ s.hasController = false then
    -- LEDs newly enabled: rebuild the controller, raise the enable pin
    (⟨true, true, false, blackFrames⟩, ⟨false, true⟩)
  else if ¬ledsEnabled ∧ s.hasController = true then
    -- LEDs newly disabled: blackout render, destroy controller, lower
    -- the enable pin, park the PWM pins high
    (⟨false, false, true, blackFrames⟩, ⟨true, false⟩)
  else
    ({ s with blackFrames := blackFrames }, ⟨false, s.hasController⟩)

/-- Per-pixel current coefficients of `get_power_limit_scaling`. -/
def currentOffset : ℚ := 15 / 10

def currentPerValR : ℚ := 5533 / 100000000

def currentPerValG : ℚ := 4985 / 100000000

def currentPerValB : ℚ := 5533 / 100000000

def currentLimit : ℚ := 4

/-- The predicted total current of a frame (the accumulation loop of
`get_power_limit_scaling`). -/
def totalCurrent (ledUpdate : LedUpdate) : ℚ :=
  ledUpdate.spines.foldl
    (fun acc spine =>
      spine.foldl
        (fun acc2 led =>
          acc2 + (led.1 : ℚ) * currentPerValR + (led.2.1 : ℚ) * currentPerValG +
            (led.2.2 : ℚ) * currentPerValB)
        acc)
    currentOffset

/-- `Led::get_power_limit_scaling`. -/
def getPowerLimitScaling (ledUpdate : LedUpdate) : Option ℚ :=
  if totalCurrent ledUpdate ≤ currentLimit then none
  else some (currentLimit / totalCurrent ledUpdate)

/-- The `power_scale` selection of `led_thread` (lines 192–200): thermal
scaling first, then—if the external brightness setpoint is below 100—the
brightness scaling *overwrites* it. -/
def selectPowerScale (ledUpdate : LedUpdate) (brightness : ℕ) : Option ℚ :=
  let powerScale := getPowerLimitScaling ledUpdate
  if brightness < 100 then some ((brightness : ℚ) / 100) else powerScale

/-- `Led::scale_val` (`f32::round(value * scaling) as u8`; the float→int
cast saturates). -/
def scaleVal (value : ℕ) (scaling : Option ℚ) : ℕ :=
  match scaling with
  | some s => min ((roundF32 ((value : ℚ) * s)).toNat) 255
  | none => value

/-- The scaling the spec's words prescribe for claim C5: the minimum of
the thermal scale and `brightness/100` (brightness scaling \x22replaces,
not composes with, the thermal scale when smaller\x22). -/
def specAppliedScale (ledUpdate : LedUpdate) (brightness : ℕ) : Option ℚ :=
  if brightness < 100 then
    some (min ((getPowerLimitScaling ledUpdate).getD 1) ((brightness : ℚ) / 100))
  else getPowerLimitScaling ledUpdate

/-! ## control_server.rs -/

/-- `Controls`. -/
structure Controls where
  brightness : ℕ
  pattern : String
deriving DecidableEq, Repr

/-- `Controls::default`. -/
def Controls.default : Controls := ⟨100, "colour_wipes"⟩

/-- `ALLOWED_PATTERNS`. -/
def ALLOWED_PATTERNS : List String :=
  ["colourfield", "colour_wipes", "glitch", "sleep", "sparkles",
   "starfield", "wormholes"]

/-- `str::parse::<u8>`: optional `+` sign, one or more ASCII digits,
error on empty input, other characters, or overflow past 255. -/
def parseU8 (s : String) : Option ℕ :=
  let digits := match s.data with
    | '+' :: rest => rest
    | chars => chars
  if digits.isEmpty then none
  else
    digits.foldl
      (fun acc c =>
        match acc with
        | none => none
        | some n =>
          if c.isDigit then
            let m := n * 10 + (c.toNat - '0'.toNat)
            if m ≤ 255 then some m else none
          else none)
      (some 0)

/-- The fields of one form-encoded `POST /command` body. -/
structure CommandForm where
  brightness : Option String
  pattern : Option String

/-- The `/command` handler of `control_server`: validate and commit each
recognised field, silently ignoring invalid values. -/
def handleCommand (controls : Controls) (p : CommandForm) : Controls :=
  let controls1 :=
    match p.brightness with
    | some s =>
      match parseU8 s with
      | some x => if x ≤ 100 then { controls with brightness := x } else controls
      | none => controls
    | none => controls
  match p.pattern with
  | some s =>
    if ALLOWED_PATTERNS.contains s then { controls1 with pattern := s }
    else controls1
  | none => controls1

/-! ## Concrete inputs used by counterexamples and witnesses -/

/-- A full-white frame of the real dimensions (12 × 59). -/
def allWhiteFrame : LedUpdate :=
  ⟨List.replicate SPINES (List.replicate LEDS_PER_SPINE (255, 255, 255))⟩

/-- An all-black frame of the real dimensions. -/
def blackFrame : LedUpdate :=
  ⟨List.replicate SPINES (List.replicate LEDS_PER_SPINE (0, 0, 0))⟩

/-- A frame with every pixel dimly red (non-black). -/
def redFrame : LedUpdate :=
  ⟨List.replicate SPINES (List.replicate LEDS_PER_SPINE (1, 0, 0))⟩

/-- A valid tube whose last bean moves right from `115.9` at velocity 6:
its unclamped next position, `116.5`, stays below the wall at `117`. -/
def tubeC7 : BeanTube :=
  ⟨((List.range 40).map fun i => ⟨(i : ℚ), 0, (255, 255, 255)⟩) ++
    [⟨1159 / 10, 6, (255, 255, 255)⟩]⟩

/-- `tubeC7` after the sub-step: the last bean was snapped to the wall. -/
def tubeC7after : BeanTube :=
  ⟨((List.range 40).map fun i => ⟨(i : ℚ), 0, (255, 255, 255)⟩) ++
    [⟨117, 0, (255, 255, 255)⟩]⟩

/-- A motion sensor whose fast window is full of all-zero readings. -/
def sensorFull : MotionSensor :=
  ⟨⟨List.replicate FAST_LPF_LEN 0, 0, FAST_LPF_LEN⟩,
   CircularBuffer.new ImuReadings SLOW_LPF_LEN, 0⟩

/-- The invariant claimed for every `BeanTube` state observed between
sub-steps (claim C1): 41 beans, consecutive positions at least `1 - ε`
apart, every position within `[-ε, TUBE_LEN - 1 + ε]`. -/
def beanInvariant (t : BeanTube) : Prop :=
  t.beans.length = NUM_BEANS ∧
  (∀ p ∈ t.beans.zip t.beans.tail,
    1 - epsilon ≤ p.2.position - p.1.position) ∧
  (∀ b ∈ t.beans,
    -epsilon ≤ b.position ∧ b.position ≤ (TUBE_LEN : ℚ) - 1 + epsilon)

/-! ## Theorems -/

/-- C8: an out-of-range brightness command and an unknown pattern command
are silently rejected (state unchanged), while a valid
`brightness=50, pattern=starfield` command commits both fields. -/
theorem controls_command_validation (controls : Controls) :
    handleCommand controls ⟨some "101", none⟩ = controls ∧
    handleCommand controls ⟨none, some "not_a_pattern"⟩ = controls ∧
    (handleCommand controls ⟨some "50", some "starfield"⟩).brightness = 50 ∧
    (handleCommand controls ⟨some "50", some "starfield"⟩).pattern =
      "starfield" :=
  ⟨rfl, rfl, rfl, rfl⟩

/-- C4 evaluation: the orientation map sends signs `(−,−,+)` to the
`starfield` registry entry, but at signs `(+,+,−)` the registry lookup
for `sparkles` fails (`patterns/mod.rs` never inserts `sparkles`), so
`select_stationary_pattern` hits the `.unwrap()` panic instead of
returning a pattern. -/
theorem selectStationary_registry_gap :
    selectStationaryPattern ⟨-1, -1, 1, 0, 0, 0⟩ = some "starfield" ∧
    selectStationaryPattern ⟨1, 1, -1, 0, 0, 0⟩ = none := by
  constructor <;> with_unfolding_all rfl

/-- The per-pixel current accumulation over a run of full-white pixels. -/
theorem ledCurrent_foldl_white (n : ℕ) (acc : ℚ) :
    List.foldl
      (fun acc2 led => acc2 + (led.1 : ℚ) * currentPerValR +
        (led.2.1 : ℚ) * currentPerValG + (led.2.2 : ℚ) * currentPerValB)
      acc (List.replicate n ((255, 255, 255) : ℕ × ℕ × ℕ)) =
      acc + n * (255 * currentPerValR + 255 * currentPerValG +
        255 * currentPerValB) := by
  induction n generalizing acc with
  | zero => simp
  | succ n ih =>
    rw [List.replicate_succ, List.foldl_cons, ih]
    push_cast
    ring

/-- The spine accumulation over a run of full-white spines. -/
theorem ledCurrent_outer_white (n : ℕ) (acc : ℚ) :
    List.foldl
      (fun acc spine =>
        spine.foldl
          (fun acc2 led => acc2 + (led.1 : ℚ) * currentPerValR +
            (led.2.1 : ℚ) * currentPerValG + (led.2.2 : ℚ) * currentPerValB)
          acc)
      acc
      (List.replicate n (List.replicate LEDS_PER_SPINE
        ((255, 255, 255) : ℕ × ℕ × ℕ))) =
      acc + n * (LEDS_PER_SPINE * (255 * currentPerValR +
        255 * currentPerValG + 255 * currentPerValB)) := by
  induction n generalizing acc with
  | zero => simp
  | succ n ih =>
    rw [List.replicate_succ, List.foldl_cons, ledCurrent_foldl_white, ih]
    push_cast
    ring

/-- The exact predicted current of the full-white frame. -/
theorem totalCurrent_allWhite :
    totalCurrent allWhiteFrame = 3047847540 / 100000000 := by
  unfold totalCurrent allWhiteFrame
  rw [ledCurrent_outer_white]
  unfold currentOffset currentPerValR currentPerValG currentPerValB
    LEDS_PER_SPINE SPINES
  norm_num

/-- The thermal scale of the full-white frame. -/
theorem getPowerLimitScaling_allWhite :
    getPowerLimitScaling allWhiteFrame =
      some ((4 : ℚ) / (3047847540 / 100000000)) := by
  unfold getPowerLimitScaling currentLimit
  rw [totalCurrent_allWhite]
  rw [if_neg (by norm_num)]

/-- C5 amended: whenever the external brightness setpoint is below 100,
`brightness/100` *unconditionally replaces* the thermal scale (even when
the thermal scale is smaller); at 100 and above the thermal scale alone
applies. -/
theorem selectPowerScale_brightness_overrides (ledUpdate : LedUpdate)
    (brightness : ℕ) :
    (brightness < 100 →
      selectPowerScale ledUpdate brightness = some ((brightness : ℚ) / 100)) ∧
    (100 ≤ brightness →
      selectPowerScale ledUpdate brightness =
        getPowerLimitScaling ledUpdate) := by
  constructor <;> intro h <;> unfold selectPowerScale
  · rw [if_pos h]
  · rw [if_neg (Nat.not_lt.mpr h)]

/-- Witness for C5's amended theorem at the full-white frame. -/
theorem selectPowerScale_brightness_overrides_witness :
    selectPowerScale allWhiteFrame 99 = some ((99 : ℚ) / 100) ∧
    selectPowerScale allWhiteFrame 100 = getPowerLimitScaling allWhiteFrame :=
  ⟨(selectPowerScale_brightness_overrides allWhiteFrame 99).1 (by norm_num),
   (selectPowerScale_brightness_overrides allWhiteFrame 100).2 (by norm_num)⟩

/-- C5 counterexample: on the full-white frame with brightness 99, the
driver applies `99/100` although the needed thermal scale is smaller, so
the applied scale is not `min(thermal, brightness/100)`. -/
theorem selectPowerScale_not_spec_min :
    selectPowerScale allWhiteFrame 99 = some ((99 : ℚ) / 100) ∧
    getPowerLimitScaling allWhiteFrame =
      some ((4 : ℚ) / (3047847540 / 100000000)) ∧
    (4 : ℚ) / (3047847540 / 100000000) < (99 : ℚ) / 100 ∧
    selectPowerScale allWhiteFrame 99 ≠ specAppliedScale allWhiteFrame 99 := by
  have hth := getPowerLimitScaling_allWhite
  have hlt : (4 : ℚ) / (3047847540 / 100000000) < (99 : ℚ) / 100 := by
    norm_num
  have hcast : ((99 : ℕ) : ℚ) = 99 := by norm_num
  have hsel : selectPowerScale allWhiteFrame 99 = some ((99 : ℚ) / 100) := by
    rw [(selectPowerScale_brightness_overrides allWhiteFrame 99).1
      (by norm_num), hcast]
  have hspec : specAppliedScale allWhiteFrame 99 =
      some ((4 : ℚ) / (3047847540 / 100000000)) := by
    unfold specAppliedScale
    rw [if_pos (by norm_num : (99 : ℕ) < 100), hth, Option.getD_some, hcast,
      min_eq_left hlt.le]
  refine ⟨hsel, hth, hlt, ?_⟩
  rw [hsel, hspec]
  intro h
  exact absurd (Option.some.inj h) (ne_of_gt hlt)

/-- C3: with the controller powered and no black frames seen, the first
two all-black frames are still rendered; the third destroys the
controller, drives the enable pin low and parks the PWM pins high; while
gated no further black frame renders or changes state; the next
non-black frame rebuilds the controller, raises the enable pin and
renders. -/
theorem ledThread_power_gating (s : LedThreadState) (f1 f2 f3 g : LedUpdate)
    (hs : s.hasController = true) (hbf : s.blackFrames = 0)
    (h1 : allPixelsOff f1 = true) (h2 : allPixelsOff f2 = true)
    (h3 : allPixelsOff f3 = true) (hg : allPixelsOff g = false) :
    (ledFrameStep s f1).2.rendered = true ∧
    (ledFrameStep (ledFrameStep s f1).1 f2).2.rendered = true ∧
    (ledFrameStep (ledFrameStep (ledFrameStep s f1).1 f2).1 f3).2.rendered
      = false ∧
    (ledFrameStep (ledFrameStep (ledFrameStep s f1).1 f2).1 f3).1 =
      ⟨false, false, true, 3⟩ ∧
    (∀ fb : LedUpdate, allPixelsOff fb = true →
      ledFrameStep (⟨false, false, true, 3⟩ : LedThreadState) fb =
        (⟨false, false, true, 3⟩, ⟨false, false⟩)) ∧
    ledFrameStep (⟨false, false, true, 3⟩ : LedThreadState) g =
      (⟨true, true, false, 0⟩, ⟨false, true⟩) := by
  obtain ⟨hc, pin, pwm, bf⟩ := s
  simp only at hs hbf
  subst hs hbf
  refine ⟨?_, ?_, ?_, ?_, ?_, ?_⟩
  · simp [ledFrameStep, h1]
  · simp [ledFrameStep, h1, h2]
  · simp [ledFrameStep, h1, h2, h3]
  · simp [ledFrameStep, h1, h2, h3]
  · intro fb hfb
    simp [ledFrameStep, hfb]
  · simp [ledFrameStep, hg]

/-- Witness for C3 at the all-black and dim-red concrete frames. -/
theorem ledThread_power_gating_witness :
    (ledFrameStep ⟨true, true, false, 0⟩ blackFrame).2.rendered = true ∧
    (ledFrameStep (ledFrameStep ⟨true, true, false, 0⟩ blackFrame).1
      blackFrame).2.rendered = true ∧
    (ledFrameStep (ledFrameStep (ledFrameStep ⟨true, true, false, 0⟩
      blackFrame).1 blackFrame).1 blackFrame).1 = ⟨false, false, true, 3⟩ ∧
    ledFrameStep (⟨false, false, true, 3⟩ : LedThreadState) redFrame =
      (⟨true, true, false, 0⟩, ⟨false, true⟩) := by
  have h := ledThread_power_gating ⟨true, true, false, 0⟩ blackFrame
    blackFrame blackFrame redFrame rfl rfl (by decide) (by decide)
    (by decide) (by decide)
  exact ⟨h.1, h.2.1, h.2.2.2.1, h.2.2.2.2.2⟩

/-- Componentwise shape of `ImuReadings` addition. -/
theorem imu_add_def (a b : ImuReadings) :
    a + b = ⟨a.xa + b.xa, a.ya + b.ya, a.za + b.za,
             a.xg + b.xg, a.yg + b.yg, a.zg + b.zg⟩ := rfl

/-- Componentwise shape of `ImuReadings` scalar division. -/
theorem imu_div_def (a : ImuReadings) (c : ℚ) :
    a / c = ⟨a.xa / c, a.ya / c, a.za / c, a.xg / c, a.yg / c, a.zg / c⟩ := rfl

/-- Summing `n` copies of the same reading. -/
theorem listSum_replicate_imu (v : ImuReadings) (n : ℕ) :
    listSum (List.replicate n v) =
      ⟨n * v.xa, n * v.ya, n * v.za, n * v.xg, n * v.yg, n * v.zg⟩ := by
  have key : ∀ (n : ℕ) (acc : ImuReadings),
      List.foldl (fun acc x => acc + x) acc (List.replicate n v) =
        ⟨acc.xa + n * v.xa, acc.ya + n * v.ya, acc.za + n * v.za,
         acc.xg + n * v.xg, acc.yg + n * v.yg, acc.zg + n * v.zg⟩ := by
    intro n
    induction n with
    | zero => intro acc; simp
    | succ n ih =>
      intro acc
      rw [List.replicate_succ, List.foldl_cons, ih, imu_add_def]
      simp only [ImuReadings.mk.injEq]
      push_cast
      refine ⟨by ring, by ring, by ring, by ring, by ring, by ring⟩
  have h0 := key n 0
  unfold listSum
  rw [h0]
  simp only [ImuReadings.mk.injEq]
  refine ⟨?_, ?_, ?_, ?_, ?_, ?_⟩ <;> simp [show (0 : ImuReadings).xa = 0 from rfl,
    show (0 : ImuReadings).ya = 0 from rfl, show (0 : ImuReadings).za = 0 from rfl,
    show (0 : ImuReadings).xg = 0 from rfl, show (0 : ImuReadings).yg = 0 from rfl,
    show (0 : ImuReadings).zg = 0 from rfl]

/-- `k ≤ N` pushes of `v` into a fresh buffer leave `replicate k v` with
the write pointer still at 0. -/
theorem pushTimes_replicate (v : ImuReadings) (N : ℕ) :
    ∀ k, k ≤ N → (CircularBuffer.new ImuReadings N).pushTimes v k =
      ⟨List.replicate k v, 0, N⟩ := by
  intro k
  induction k with
  | zero => intro _; rfl
  | succ k ih =>
    intro hk
    have hstep : (CircularBuffer.new ImuReadings N).pushTimes v (k + 1) =
        ((CircularBuffer.new ImuReadings N).pushTimes v k).push v := rfl
    rw [hstep, ih (Nat.le_of_succ_le hk)]
    unfold CircularBuffer.push
    rw [if_pos (by simpa using Nat.lt_of_succ_le hk)]
    simp [← List.replicate_succ']

/-- C9: after exactly `N` pushes of the same value `v` into an empty
buffer of capacity `N`, `mean`, `head` and `tail` all return `some v`. -/
theorem ringBuffer_n_pushes (N : ℕ) (v : ImuReadings) (hN : 0 < N) :
    ((CircularBuffer.new ImuReadings N).pushTimes v N).mean = some v ∧
    ((CircularBuffer.new ImuReadings N).pushTimes v N).head = some v ∧
    ((CircularBuffer.new ImuReadings N).pushTimes v N).tail = some v := by
  have hbuf := pushTimes_replicate v N N le_rfl
  rw [hbuf]
  have hNQ : ((N : ℚ)) ≠ 0 := Nat.cast_ne_zero.mpr hN.ne'
  refine ⟨?_, ?_, ?_⟩
  · unfold CircularBuffer.mean
    rw [if_pos (by simp)]
    rw [show (⟨List.replicate N v, 0, N⟩ : CircularBuffer ImuReadings).buffer
      = List.replicate N v from rfl]
    rw [listSum_replicate_imu, imu_div_def]
    simp only [Option.some.injEq]
    have harr : ∀ q : ℚ, (N : ℚ) * q / (N : ℚ) = q := fun q =>
      mul_div_cancel_left₀ q hNQ
    calc (⟨(N : ℚ) * v.xa / N, (N : ℚ) * v.ya / N, (N : ℚ) * v.za / N,
          (N : ℚ) * v.xg / N, (N : ℚ) * v.yg / N, (N : ℚ) * v.zg / N⟩ :
            ImuReadings)
        = ⟨v.xa, v.ya, v.za, v.xg, v.yg, v.zg⟩ := by
          simp only [ImuReadings.mk.injEq]
          exact ⟨harr _, harr _, harr _, harr _, harr _, harr _⟩
      _ = v := rfl
  · unfold CircularBuffer.head
    simp [List.get?_eq_getElem?, List.getElem?_replicate,
      Nat.sub_lt hN Nat.one_pos]
  · unfold CircularBuffer.tail
    simp [List.get?_eq_getElem?, List.getElem?_replicate, hN]

/-- Witness for C9 at capacity 3 and a concrete reading. -/
theorem ringBuffer_n_pushes_witness :
    ((CircularBuffer.new ImuReadings 3).pushTimes ⟨1, 2, 3, 4, 5, 6⟩ 3).mean
      = some ⟨1, 2, 3, 4, 5, 6⟩ ∧
    ((CircularBuffer.new ImuReadings 3).pushTimes ⟨1, 2, 3, 4, 5, 6⟩ 3).head
      = some ⟨1, 2, 3, 4, 5, 6⟩ ∧
    ((CircularBuffer.new ImuReadings 3).pushTimes ⟨1, 2, 3, 4, 5, 6⟩ 3).tail
      = some ⟨1, 2, 3, 4, 5, 6⟩ :=
  ringBuffer_n_pushes 3 ⟨1, 2, 3, 4, 5, 6⟩ (by norm_num)

/-- A full `mean` implies the window is full. -/
theorem mean_some_length {T : Type} [Zero T] [Add T] [HDiv T ℚ T]
    (c : CircularBuffer T) (m : T) (h : c.mean = some m) :
    c.buffer.length = c.capacity := by
  unfold CircularBuffer.mean at h
  by_cases hl : c.buffer.length = c.capacity
  · exact hl
  · rw [if_neg hl] at h
    exact absurd h (by simp)

/-- C6: `detect_fast_movement` returns true exactly when the fast window
has a mean (i.e. is full) whose accelerometer magnitude deviates from
9.81 by more than 0.5 or whose gyro magnitude exceeds 1.0; it returns
false while the window holds fewer than 15 samples, and whenever it
returns true it also clears the slow window. -/
theorem detectFast_spec (s : MotionSensor)
    (hcap : s.fast_lpf_buffer.capacity = FAST_LPF_LEN) :
    ((s.detectFastMovement.1 = true) ↔
      ∃ m, s.fast_lpf_buffer.mean = some m ∧
        (|m.accelMagnitude - GRAVITY_MS| > ACCEL_SHOCK_THRESH ∨
          m.gyroMagnitude > GYRO_SHOCK_THRESH)) ∧
    (s.fast_lpf_buffer.buffer.length < 15 → s.detectFastMovement.1 = false) ∧
    (s.detectFastMovement.1 = true → s.fast_lpf_buffer.buffer.length = 15) ∧
    (s.detectFastMovement.1 = true →
      s.detectFastMovement.2 =
        { s with slow_lpf_buffer := s.slow_lpf_buffer.clear }) := by
  cases hmean : s.fast_lpf_buffer.mean with
  | none =>
    have hres : s.detectFastMovement = (false, s) := by
      unfold MotionSensor.detectFastMovement
      rw [hmean]
    rw [hres]
    refine ⟨?_, fun _ => rfl, ?_, ?_⟩
    · constructor
      · intro h; exact absurd h (by simp)
      · rintro ⟨m, hm, _⟩
        exact absurd hm (by simp)
    · intro h; exact absurd h (by simp)
    · intro h; exact absurd h (by simp)
  | some m =>
    have hlen : s.fast_lpf_buffer.buffer.length = 15 := by
      have := mean_some_length _ _ hmean
      rw [hcap] at this
      exact this
    by_cases hc : |m.accelMagnitude - GRAVITY_MS| > ACCEL_SHOCK_THRESH ∨
        m.gyroMagnitude > GYRO_SHOCK_THRESH
    · have hres : s.detectFastMovement =
          (true, { s with slow_lpf_buffer := s.slow_lpf_buffer.clear }) := by
        unfold MotionSensor.detectFastMovement
        rw [hmean]
        exact if_pos hc
      rw [hres]
      exact ⟨by simp only [true_iff]; exact ⟨m, rfl, hc⟩,
        fun h => absurd hlen (by omega), fun _ => hlen, fun _ => rfl⟩
    · have hres : s.detectFastMovement = (false, s) := by
        unfold MotionSensor.detectFastMovement
        rw [hmean]
        exact if_neg hc
      rw [hres]
      refine ⟨?_, fun _ => rfl, ?_, ?_⟩
      · constructor
        · intro h; exact absurd h (by simp)
        · rintro ⟨m2, hm2, hcond⟩
          cases Option.some.inj hm2
          exact absurd hcond hc
      · intro h; exact absurd h (by simp)
      · intro h; exact absurd h (by simp)

/-- Witness for C6: a fast window full of zero readings (mean magnitude 0
deviates from 9.81 by more than 0.5) fires the detection and clears the
slow window. -/
theorem detectFast_spec_witness :
    sensorFull.detectFastMovement.1 = true ∧
    sensorFull.detectFastMovement.2 =
      { sensorFull with slow_lpf_buffer := sensorFull.slow_lpf_buffer.clear } := by
  have h := detectFast_spec sensorFull rfl
  have hmean : sensorFull.fast_lpf_buffer.mean = some 0 := by
    with_unfolding_all rfl
  have hzero : ImuReadings.accelMagnitude 0 = 0 := by
    unfold ImuReadings.accelMagnitude
    rw [show (0 : ImuReadings) = ⟨0, 0, 0, 0, 0, 0⟩ from rfl]
    norm_num
  have hcond : |ImuReadings.accelMagnitude 0 - GRAVITY_MS| >
      ACCEL_SHOCK_THRESH := by
    rw [hzero]
    unfold GRAVITY_MS ACCEL_SHOCK_THRESH
    rw [zero_sub, abs_neg, abs_of_nonneg (by norm_num)]
    norm_num
  have htrue := h.1.mpr ⟨0, hmean, Or.inl hcond⟩
  exact ⟨htrue, h.2.2.2 htrue⟩

/-- The pairwise sanity checks, read off along the consecutive pairs. -/
theorem sanityPairs_zip : ∀ l : List Bean, sanityPairs l = true →
    ∀ p ∈ l.zip l.tail, 1 - epsilon < p.2.position - p.1.position := by
  intro l
  induction l with
  | nil => intro _ p hp; simp at hp
  | cons b rest ih =>
    cases rest with
    | nil => intro _ p hp; simp at hp
    | cons nextBean rest2 =>
      intro h p hp
      simp only [sanityPairs, Bool.and_eq_true, decide_eq_true_eq] at h
      simp only [List.tail_cons, List.zip_cons_cons, List.mem_cons] at hp
      rcases hp with rfl | hp2
      · exact h.1
      · exact ih h.2 p (by simpa using hp2)

/-- A passing `sanity_check` establishes the claimed invariant. -/
theorem sanityCheck_invariant (t : BeanTube) (h : t.sanityCheck = true) :
    beanInvariant t := by
  unfold BeanTube.sanityCheck at h
  simp only [Bool.and_eq_true, decide_eq_true_eq] at h
  obtain ⟨⟨⟨h1, _⟩, h3⟩, h4⟩ := h
  refine ⟨h1, fun p hp => (sanityPairs_zip t.beans h3 p hp).le, fun b hb => ?_⟩
  obtain ⟨ha, hb2⟩ := h4 b hb
  exact ⟨ha.le, hb2.le⟩

/-- C1: whenever a sub-step completes (returns `some`), both the entry
state and the exit state satisfy the claimed invariant (41 beans, ordered
with gaps at least `1 − ε`, positions within `[−ε, TUBE_LEN − 1 + ε]`);
and an invariant violation at entry makes `sub_step` abort (`none`, the
embedded `assert!` panic) rather than return a recoverable value. -/
theorem subStep_invariants (t : BeanTube) (acceleration : ℚ)
    (rnd : ℕ → ℚ) :
    (∀ t', t.subStep acceleration rnd = some t' →
      beanInvariant t ∧ beanInvariant t') ∧
    (t.sanityCheck = false → t.subStep acceleration rnd = none) := by
  constructor
  · intro t' h
    unfold BeanTube.subStep at h
    by_cases h1 : t.sanityCheck = true
    · rw [if_pos h1] at h
      by_cases h2 : (⟨subStepPass acceleration rnd 0 none t.beans⟩ :
          BeanTube).sanityCheck = true
      · rw [if_pos h2] at h
        have heq := Option.some.inj h
        subst heq
        exact ⟨sanityCheck_invariant t h1, sanityCheck_invariant _ h2⟩
      · rw [if_neg h2] at h
        exact absurd h (by simp)
    · rw [if_neg h1] at h
      exact absurd h (by simp)
  · intro hf
    unfold BeanTube.subStep
    rw [if_neg (by simp [hf])]

/-- Witness for C1 at the freshly constructed tube and zero acceleration
(the sub-step is then the identity). -/
theorem subStep_invariants_witness :
    beanInvariant BeanTube.new ∧ beanInvariant BeanTube.new :=
  (subStep_invariants BeanTube.new 0 fun _ => 1 / 2).1 BeanTube.new
    (by with_unfolding_all rfl)

/-- C7 amended: in a sub-step, a bean whose right neighbour is the wall
is clamped to `TUBE_LEN − 1` with velocity zeroed exactly when
`TUBE_LEN − 1 − next < 1` (i.e. when the unclamped next position exceeds
`TUBE_LEN − 2`, not `TUBE_LEN − 1`); at the left wall the clamp to 0
fires exactly when `next < 0`; otherwise the bean commits
`position + velocity·DT` unchanged. -/
theorem subStepBean_wall (acceleration rnd : ℚ) (b : Bean)
    (leftBean rightBean : Option Bean) (v next : ℚ)
    (hv : v = b.velocity + (acceleration + |acceleration| * (2 * rnd - 1)) * DT)
    (hnext : next = b.position + v * DT) :
    (0 < v → subStepBean acceleration rnd leftBean b none =
      if (TUBE_LEN : ℚ) - 1 - next < 1 then
        { b with position := (TUBE_LEN : ℚ) - 1, velocity := 0 }
      else { b with position := next, velocity := v }) ∧
    (v < 0 → subStepBean acceleration rnd none b rightBean =
      if next < 0 then { b with position := 0, velocity := 0 }
      else { b with position := next, velocity := v }) ∧
    (v = 0 → subStepBean acceleration rnd leftBean b rightBean =
      { b with position := next, velocity := v }) := by
  subst hv hnext
  refine ⟨?_, ?_, ?_⟩
  · intro hpos
    unfold subStepBean
    simp only []
    rw [if_pos hpos]
    split_ifs <;> rfl
  · intro hneg
    unfold subStepBean
    simp only []
    rw [if_neg (by linarith), if_pos hneg]
    split_ifs <;> rfl
  · intro hzero
    unfold subStepBean
    simp only []
    rw [if_neg (by rw [hzero]; exact lt_irrefl 0),
      if_neg (by rw [hzero]; exact lt_irrefl 0)]

/-- Witness for C7's amended theorem: a free bean far from the wall
commits its unclamped next position. -/
theorem subStepBean_wall_witness :
    subStepBean 0 (1 / 2) none ⟨100, 20, (255, 255, 255)⟩ none =
      ⟨102, 20, (255, 255, 255)⟩ := by
  have h := (subStepBean_wall 0 (1 / 2) ⟨100, 20, (255, 255, 255)⟩ none none
    20 102
    (by unfold DT STEPS_PER_FRAME; norm_num)
    (by unfold DT STEPS_PER_FRAME; norm_num)).1 (by norm_num)
  rw [if_neg (by unfold TUBE_LEN; norm_num)] at h
  exact h

/-- C7 counterexample: in a full sub-step of a valid tube, the last bean
at `115.9` with velocity 6 has unclamped next position `116.5`, which
does **not** exceed `TUBE_LEN − 1 = 117`, yet the code clamps it to `117`
and zeroes its velocity (the wall test fires already at
`TUBE_LEN − 2 = 116`). -/
theorem subStepBean_wall_counterexample :
    tubeC7.subStep 0 (fun _ => 1 / 2) = some tubeC7after ∧
    (1159 / 10 : ℚ) +
        (6 + (0 + |(0 : ℚ)| * (2 * (1 / 2) - 1)) * DT) * DT ≤
      (TUBE_LEN : ℚ) - 1 ∧
    (tubeC7after.beans.getLast?).map Bean.position = some 117 ∧
    (117 : ℚ) ≠
      1159 / 10 + (6 + (0 + |(0 : ℚ)| * (2 * (1 / 2) - 1)) * DT) * DT := by
  refine ⟨by with_unfolding_all rfl, ?_, by with_unfolding_all rfl, ?_⟩
  · unfold DT STEPS_PER_FRAME TUBE_LEN
    norm_num
  · unfold DT STEPS_PER_FRAME
    norm_num

/-- Rounding never goes negative on sanity-valid positions. -/
theorem roundF32_nonneg (q : ℚ) (h : -epsilon ≤ q) : 0 ≤ roundF32 q := by
  unfold roundF32
  unfold epsilon at h
  split_ifs with hq
  · have h1 : (⌊-q + 1 / 2⌋ : ℤ) = 0 := by
      rw [Int.floor_eq_zero_iff]
      constructor
      · linarith
      · linarith
    rw [h1]
    simp
  · exact Int.floor_nonneg.mpr (by push_neg at hq; linarith)

/-- Positions at least 1 apart round to strictly increasing integers
(given the sanity lower bound on the left one). -/
theorem roundF32_step (p q : ℚ) (hp : -epsilon ≤ p) (hpq : p + 1 ≤ q) :
    roundF32 p < roundF32 q := by
  unfold roundF32
  unfold epsilon at hp
  have hq0 : ¬q < 0 := by push_neg; linarith
  rw [if_neg hq0]
  split_ifs with hp0
  · have h1 : (⌊-p + 1 / 2⌋ : ℤ) = 0 := by
      rw [Int.floor_eq_zero_iff]
      constructor
      · linarith
      · linarith
    rw [h1]
    simp only [neg_zero]
    have : (1 : ℤ) ≤ ⌊q + 1 / 2⌋ := Int.le_floor.mpr (by push_cast; linarith)
    omega
  · have : ⌊p + 1 / 2⌋ + 1 ≤ ⌊q + 1 / 2⌋ := by
      rw [show (⌊p + 1 / 2⌋ + 1 : ℤ) = ⌊p + 1 / 2 + 1⌋ from
        (Int.floor_add_one _).symm]
      exact Int.floor_le_floor (by linarith)
    omega

/-- The integer slots of such positions are strictly increasing. -/
theorem roundSlot_step (p q : ℚ) (hp : -epsilon ≤ p) (hpq : p + 1 ≤ q) :
    roundSlot p < roundSlot q := by
  unfold roundSlot
  have h1 := roundF32_nonneg p hp
  have h2 := roundF32_step p q hp hpq
  omega

/-- Positions are monotone along the bean list: every later bean is at
least one slot to the right. -/
theorem pos_mono : ∀ (l : List Bean) (b : Bean),
    (∀ p ∈ (b :: l).zip ((b :: l).tail), p.1.position + 1 ≤ p.2.position) →
    ∀ b2 ∈ l, b.position + 1 ≤ b2.position := by
  intro l
  induction l with
  | nil => intro b _ b2 h2; simp at h2
  | cons nextBean rest ih =>
    intro b hgap b2 hb2
    have hhead : b.position + 1 ≤ nextBean.position := by
      apply hgap (b, nextBean)
      simp [List.zip_cons_cons]
    rcases List.mem_cons.mp hb2 with rfl | hb2m
    · exact hhead
    · have hrec := ih nextBean ?_ b2 hb2m
      · linarith
      · intro p hp
        apply hgap
        simp only [List.tail_cons] at hp ⊢
        rw [List.zip_cons_cons]
        exact List.mem_cons_of_mem _ hp

/-- Under unit gaps and the sanity lower bound, the beans' rounded slots
are pairwise strictly increasing. -/
theorem pairwise_slots : ∀ l : List Bean,
    (∀ p ∈ l.zip l.tail, p.1.position + 1 ≤ p.2.position) →
    (∀ b ∈ l, -epsilon ≤ b.position) →
    List.Pairwise
      (fun b b2 => roundSlot b.position < roundSlot b2.position) l := by
  intro l
  induction l with
  | nil => intro _ _; exact List.Pairwise.nil
  | cons b rest ih =>
    intro hgap hlow
    constructor
    · intro b2 hb2
      exact roundSlot_step _ _ (hlow b (List.mem_cons_self _ _))
        (pos_mono rest b hgap b2 hb2)
    · apply ih
      · intro p hp
        apply hgap
        cases rest with
        | nil => simp at hp
        | cons nextBean rest2 =>
          simp only [List.tail_cons] at hp ⊢
          rw [List.zip_cons_cons]
          exact List.mem_cons_of_mem _ hp
      · intro b2 hb2
        exact hlow b2 (List.mem_cons_of_mem _ hb2)

/-- With pairwise strictly increasing slots, each slot is hit at most
once and the first-match search finds the unique bean. -/
theorem slots_findFirst : ∀ (l : List Bean) (slot : ℕ),
    List.Pairwise
      (fun b b2 => roundSlot b.position < roundSlot b2.position) l →
    (l.countP (fun b => roundSlot b.position == slot) ≤ 1) ∧
    (∀ b ∈ l, roundSlot b.position = slot →
      l.find? (fun b => roundSlot b.position == slot) = some b) := by
  intro l slot
  induction l with
  | nil => intro _; exact ⟨by simp, by simp⟩
  | cons b rest ih =>
    intro hpw
    obtain ⟨hhead, htail⟩ := List.pairwise_cons.mp hpw
    obtain ⟨ihc, ihf⟩ := ih htail
    by_cases hb : roundSlot b.position = slot
    · have hrest : ∀ x ∈ rest, ¬(roundSlot x.position == slot) = true := by
        intro x hx
        simp only [beq_iff_eq]
        have := hhead x hx
        omega
      constructor
      · rw [List.countP_cons]
        have hzero : List.countP (fun b => roundSlot b.position == slot) rest
            = 0 := List.countP_eq_zero.mpr hrest
        simp [hzero, hb]
      · intro b2 hb2 hslot
        have hb2head : b2 = b := by
          rcases List.mem_cons.mp hb2 with rfl | hmem
          · rfl
          · exact absurd (by simpa using hslot) (by simpa using hrest b2 hmem)
        subst hb2head
        exact List.find?_cons_of_pos _ (by simp [hb])
    · constructor
      · rw [List.countP_cons]
        simp [hb, ihc]
      · intro b2 hb2 hslot
        rcases List.mem_cons.mp hb2 with rfl | hmem
        · exact absurd hslot hb
        · rw [List.find?_cons_of_neg _ (by simp [hb])]
          exact ihf b2 hmem hslot

/-- C10: when consecutive bean positions differ by at least 1 (and obey
the sanity lower bound), each integer slot is hit by at most one bean,
`get_colour` returns that unique bean's colour regardless of search
order, and black where no bean rounds. -/
theorem getColour_order_independent (t : BeanTube)
    (hgap : ∀ p ∈ t.beans.zip t.beans.tail,
      p.1.position + 1 ≤ p.2.position)
    (hlow : ∀ b ∈ t.beans, -epsilon ≤ b.position) :
    ∀ slot : ℕ,
      t.beans.countP (fun b => roundSlot b.position == slot) ≤ 1 ∧
      (∀ b ∈ t.beans, roundSlot b.position = slot →
        t.getColour slot = b.colour) ∧
      ((∀ b ∈ t.beans, roundSlot b.position ≠ slot) →
        t.getColour slot = (0, 0, 0)) := by
  intro slot
  obtain ⟨hcount, hfind⟩ :=
    slots_findFirst t.beans slot (pairwise_slots t.beans hgap hlow)
  refine ⟨hcount, ?_, ?_⟩
  · intro b hb hslot
    unfold BeanTube.getColour BeanTube.beanAtPos
    rw [hfind b hb hslot]
  · intro hnone
    unfold BeanTube.getColour BeanTube.beanAtPos
    rw [List.find?_eq_none.mpr (fun x hx => by simpa using hnone x hx)]

/-- Witness for C10 at the stacked tube: slot 117 shows the unique white
bean, and an empty slot count stays at 0 ≤ 1. -/
theorem getColour_order_independent_witness :
    tubeS1final.getColour 117 = (255, 255, 255) ∧
    tubeS1final.beans.countP (fun b => roundSlot b.position == 200) ≤ 1 := by
  have h := getColour_order_independent tubeS1final
    (of_decide_eq_true (by with_unfolding_all rfl))
    (of_decide_eq_true (by with_unfolding_all rfl))
  have hmem : (⟨77 + ((40 : ℕ) : ℚ), 0, (255, 255, 255)⟩ : Bean) ∈
      tubeS1final.beans := by
    show (⟨77 + ((40 : ℕ) : ℚ), 0, (255, 255, 255)⟩ : Bean) ∈
      (List.range NUM_BEANS).map fun i =>
        (⟨77 + (i : ℚ), 0, (255, 255, 255)⟩ : Bean)
    exact List.mem_map_of_mem _ (by decide)
  have hslot : roundSlot (77 + ((40 : ℕ) : ℚ)) = 117 := by
    have h117 : (77 + ((40 : ℕ) : ℚ)) = 117 := by norm_num
    rw [h117]
    unfold roundSlot roundF32
    rw [if_neg (by norm_num)]
    have hfl : (⌊(117 : ℚ) + 1 / 2⌋ : ℤ) = 117 := by
      rw [Int.floor_eq_iff]
      constructor <;> norm_num
    rw [hfl]
    rfl
  exact ⟨(h 117).2.1 _ hmem hslot, (h 200).1⟩

/-! ### Exactness of the scaled mirror (towards claim C2) -/

/-- A positive-velocity bean with the wall to its right. -/
theorem subStepBean_pos_none (acceleration rnd : ℚ) (leftBean : Option Bean)
    (b : Bean) (v : ℚ)
    (hv : v = b.velocity + (acceleration + |acceleration| * (2 * rnd - 1)) * DT)
    (hpos : 0 < v) :
    subStepBean acceleration rnd leftBean b none =
      if (TUBE_LEN : ℚ) - 1 - (b.position + v * DT) < 1 then
        ⟨(TUBE_LEN : ℚ) - 1, 0, b.colour⟩
      else ⟨b.position + v * DT, v, b.colour⟩ := by
  subst hv
  unfold subStepBean
  simp only []
  rw [if_pos hpos]
  split_ifs <;> rfl

/-- A positive-velocity bean with a bean to its right. -/
theorem subStepBean_pos_some (acceleration rnd : ℚ) (leftBean : Option Bean)
    (b rb : Bean) (v : ℚ)
    (hv : v = b.velocity + (acceleration + |acceleration| * (2 * rnd - 1)) * DT)
    (hpos : 0 < v) :
    subStepBean acceleration rnd leftBean b (some rb) =
      if rb.position - (b.position + v * DT) < 1 then
        ⟨rb.position - 1, if 0 < rb.velocity then rb.velocity else 0, b.colour⟩
      else ⟨b.position + v * DT, v, b.colour⟩ := by
  subst hv
  unfold subStepBean
  simp only []
  rw [if_pos hpos]
  split_ifs <;> rfl

/-- The scaled collision test against a right bean. -/
theorem bridge_collide (rbP n : ℕ) :
    ((rbP : ℚ) / 1000000 - 2) - ((n : ℚ) / 1000000 - 2) < 1 ↔
      rbP < n + 1000000 := by
  rw [show ((rbP : ℚ) / 1000000 - 2) - ((n : ℚ) / 1000000 - 2) =
    ((rbP : ℚ) - n) / 1000000 by ring]
  rw [div_lt_one (by norm_num : (0 : ℚ) < 1000000), sub_lt_iff_lt_add,
    add_comm (1000000 : ℚ)]
  exact_mod_cast Iff.rfl

/-- The scaled collision test against the right wall. -/
theorem bridge_wall (n : ℕ) :
    (TUBE_LEN : ℚ) - 1 - ((n : ℚ) / 1000000 - 2) < 1 ↔
      119000000 < n + 1000000 := by
  unfold TUBE_LEN
  rw [show ((118 : ℕ) : ℚ) - 1 - ((n : ℚ) / 1000000 - 2) =
    ((119000000 : ℚ) - n) / 1000000 by push_cast; ring]
  rw [div_lt_one (by norm_num : (0 : ℚ) < 1000000), sub_lt_iff_lt_add,
    add_comm (1000000 : ℚ)]
  exact_mod_cast Iff.rfl

/-- The sanity lower bound through the scaling. -/
theorem bridge_low (S : ℕ) :
    -epsilon < (S : ℚ) / 1000000 - 2 ↔ 1900000 < S := by
  unfold epsilon
  rw [show ((S : ℚ) / 1000000 - 2) = ((S : ℚ) - 2000000) / 1000000 by ring]
  rw [lt_div_iff (by norm_num : (0 : ℚ) < 1000000)]
  constructor
  · intro h
    have : (1900000 : ℚ) < S := by linarith
    exact_mod_cast this
  · intro h
    have : (1900000 : ℚ) < S := by exact_mod_cast h
    linarith

/-- The sanity upper bound through the scaling. -/
theorem bridge_high (S : ℕ) :
    (S : ℚ) / 1000000 - 2 < (TUBE_LEN : ℚ) - 1 + epsilon ↔ S < 119100000 := by
  unfold epsilon TUBE_LEN
  rw [div_sub' _ _ _ (by norm_num : (1000000 : ℚ) ≠ 0),
    div_lt_iff (by norm_num : (0 : ℚ) < 1000000)]
  constructor
  · intro h
    have : (S : ℚ) < 119100000 := by push_cast at h ⊢; linarith
    exact_mod_cast this
  · intro h
    have : (S : ℚ) < 119100000 := by exact_mod_cast h
    push_cast
    linarith

/-- The pairwise gap check through the scaling. -/
theorem bridge_pair (S T : ℕ) :
    1 - epsilon < ((T : ℚ) / 1000000 - 2) - ((S : ℚ) / 1000000 - 2) ↔
      S + 900000 < T := by
  unfold epsilon
  rw [show ((T : ℚ) / 1000000 - 2) - ((S : ℚ) / 1000000 - 2) =
    ((T : ℚ) - S) / 1000000 by ring]
  rw [lt_div_iff (by norm_num : (0 : ℚ) < 1000000)]
  constructor
  · intro h
    have : ((S : ℚ) + 900000) < T := by linarith
    exact_mod_cast this
  · intro h
    have : ((S : ℚ) + 900000) < T := by exact_mod_cast h
    linarith

/-- The velocity update of the zero-fuzz run, through the scaling. -/
theorem bridge_vel (V : ℕ) :
    (V : ℚ) / 100000 +
        ((981 : ℚ) / 100 / 100 +
          |(981 : ℚ) / 100 / 100| * (2 * (1 / 2) - 1)) * DT =
      ((V + 981 : ℕ) : ℚ) / 100000 := by
  unfold DT STEPS_PER_FRAME
  rw [abs_of_nonneg (by norm_num : (0 : ℚ) ≤ 981 / 100 / 100)]
  push_cast
  ring

/-- The position update of the zero-fuzz run, through the scaling. -/
theorem bridge_next (P W : ℕ) :
    (P : ℚ) / 1000000 - 2 + ((W : ℚ) / 100000) * DT =
      ((P + W : ℕ) : ℚ) / 1000000 - 2 := by
  unfold DT STEPS_PER_FRAME
  push_cast
  ring

/-- The components of the decoding, as rewrite rules. -/
theorem nbeanToBean_def (P V : ℕ) :
    nbeanToBean ⟨P, V⟩ =
      ⟨(P : ℚ) / 1000000 - 2, (V : ℚ) / 100000, (255, 255, 255)⟩ := rfl

/-- One bean of the zero-fuzz sub-step, exactly mirrored by `nUpd`
(the right neighbour, when present, satisfies the sanity lower bound). -/
theorem subStepBean_nUpd (leftBean : Option Bean) (nb : NBean)
    (rightBean : Option NBean)
    (hrb : ∀ x ∈ rightBean, 1900000 < x.position) :
    subStepBean ((981 : ℚ) / 100 / 100) (1 / 2) leftBean (nbeanToBean nb)
      (rightBean.map nbeanToBean) = nbeanToBean (nUpd nb rightBean) := by
  obtain ⟨P, V⟩ := nb
  have hvelQ : (nbeanToBean ⟨P, V⟩).velocity +
      ((981 : ℚ) / 100 / 100 +
        |(981 : ℚ) / 100 / 100| * (2 * (1 / 2) - 1)) * DT =
      ((V + 981 : ℕ) : ℚ) / 100000 := bridge_vel V
  have hpos : 0 < ((V + 981 : ℕ) : ℚ) / 100000 := by positivity
  have hnextQ : (nbeanToBean ⟨P, V⟩).position +
      (((V + 981 : ℕ) : ℚ) / 100000) * DT =
      ((P + (V + 981) : ℕ) : ℚ) / 1000000 - 2 := bridge_next P (V + 981)
  cases rightBean with
  | none =>
    rw [show (Option.map nbeanToBean none : Option Bean) = none from rfl]
    rw [subStepBean_pos_none _ _ leftBean _ _ hvelQ.symm hpos, hnextQ]
    have hupd : nUpd ⟨P, V⟩ none =
        if 119000000 < P + (V + 981) + 1000000 then (⟨119000000, 0⟩ : NBean)
        else ⟨P + (V + 981), V + 981⟩ := rfl
    rw [hupd]
    have h3 : (nbeanToBean ⟨P, V⟩).colour = ((255 : ℕ), (255 : ℕ), (255 : ℕ)) :=
      rfl
    by_cases hw : 119000000 < P + (V + 981) + 1000000
    · rw [if_pos ((bridge_wall _).mpr hw), if_pos hw,
        nbeanToBean_def 119000000 0]
      have h1 : (TUBE_LEN : ℚ) - 1 = ((119000000 : ℕ) : ℚ) / 1000000 - 2 := by
        unfold TUBE_LEN
        norm_num
      have h2 : (0 : ℚ) = ((0 : ℕ) : ℚ) / 100000 := by norm_num
      rw [h1, h2, h3]
    · rw [if_neg (fun hc => hw ((bridge_wall _).mp hc)), if_neg hw,
        nbeanToBean_def (P + (V + 981)) (V + 981), h3]
  | some rbn =>
    have hrbpos : 1900000 < rbn.position := hrb rbn rfl
    have hrb1e6 : 1000000 ≤ rbn.position := by omega
    rw [show (Option.map nbeanToBean (some rbn) : Option Bean) =
      some (nbeanToBean rbn) from rfl]
    rw [subStepBean_pos_some _ _ leftBean _ _ _ hvelQ.symm hpos, hnextQ]
    have hupd : nUpd ⟨P, V⟩ (some rbn) =
        if rbn.position < P + (V + 981) + 1000000 then
          (⟨rbn.position - 1000000,
            if 0 < rbn.velocity then rbn.velocity else 0⟩ : NBean)
        else ⟨P + (V + 981), V + 981⟩ := rfl
    rw [hupd]
    have hrbP : (nbeanToBean rbn).position = (rbn.position : ℚ) / 1000000 - 2 :=
      rfl
    have hrbV : (nbeanToBean rbn).velocity = (rbn.velocity : ℚ) / 100000 := rfl
    rw [hrbP, hrbV]
    have h3 : (nbeanToBean ⟨P, V⟩).colour = ((255 : ℕ), (255 : ℕ), (255 : ℕ)) :=
      rfl
    by_cases hcol : rbn.position < P + (V + 981) + 1000000
    · rw [if_pos ((bridge_collide _ _).mpr hcol), if_pos hcol,
        nbeanToBean_def (rbn.position - 1000000)
          (if 0 < rbn.velocity then rbn.velocity else 0)]
      have h1 : (rbn.position : ℚ) / 1000000 - 2 - 1 =
          ((rbn.position - 1000000 : ℕ) : ℚ) / 1000000 - 2 := by
        rw [Nat.cast_sub hrb1e6]
        push_cast
        ring
      have h2 : (if 0 < (rbn.velocity : ℚ) / 100000 then
            (rbn.velocity : ℚ) / 100000 else 0) =
          ((if 0 < rbn.velocity then rbn.velocity else 0 : ℕ) : ℚ) / 100000 := by
        by_cases hv : 0 < rbn.velocity
        · rw [if_pos hv, if_pos (div_pos (by exact_mod_cast hv)
            (by norm_num : (0 : ℚ) < 100000))]
        · have hv0 : rbn.velocity = 0 := by omega
          rw [if_neg hv, hv0]
          norm_num
      rw [h1, h2, h3]
    · rw [if_neg (fun hc => hcol ((bridge_collide _ _).mp hc)), if_neg hcol,
        nbeanToBean_def (P + (V + 981)) (V + 981), h3]

/-- `sanityPairs` through the decoding. -/
theorem sanityPairs_map : ∀ l : List NBean,
    sanityPairs (l.map nbeanToBean) = nPairs l
  | [] => rfl
  | [_] => rfl
  | b :: nb :: rest => by
    have ih := sanityPairs_map (nb :: rest)
    simp only [List.map_cons] at ih ⊢
    simp only [sanityPairs, nPairs]
    rw [ih]
    congr 1
    rw [decide_eq_decide]
    exact bridge_pair b.position nb.position

/-- `sanityCheck` through the decoding. -/
theorem sanityCheck_map (l : List NBean) :
    (nTube l).sanityCheck = nSanity l := by
  unfold nTube BeanTube.sanityCheck nSanity
  simp only [List.length_map]
  rw [sanityPairs_map]
  congr 1
  rw [decide_eq_decide]
  simp only [List.forall_mem_map]
  exact forall_congr' fun b => forall_congr' fun hb =>
    and_congr (bridge_low b.position) (bridge_high b.position)

/-- A list passing the mirrored sanity check has every position above the
scaled zero. -/
theorem nSanity_position_bounds (l : List NBean) (h : nSanity l = true) :
    ∀ x ∈ l, 1900000 < x.position := by
  unfold nSanity at h
  simp only [Bool.and_eq_true, decide_eq_true_eq] at h
  exact fun x hx => (h.2 x hx).1

/-- The whole zero-fuzz pass, exactly mirrored by `nPass`. -/
theorem nPass_map : ∀ (l : List NBean),
    (∀ x ∈ l, 1900000 < x.position) → ∀ (i : ℕ) (leftBean : Option Bean),
    subStepPass ((981 : ℚ) / 100 / 100) (fun _ => (1 : ℚ) / 2) i leftBean
      (l.map nbeanToBean) = (nPass l).map nbeanToBean
  | [], _, _, _ => rfl
  | b :: rest, hl, i, lb => by
    have ih := nPass_map rest
      (fun x hx => hl x (List.mem_cons_of_mem b hx)) (i + 1)
    simp only [List.map_cons, subStepPass, nPass]
    rw [List.head?_map]
    rw [subStepBean_nUpd lb b rest.head? (fun x hx =>
      hl x (List.mem_cons_of_mem b (List.mem_of_mem_head? hx)))]
    rw [ih]

/-- The whole sub-step, exactly mirrored by `nSubStep`. -/
theorem subStep_nSubStep (l : List NBean) :
    (nTube l).subStep ((981 : ℚ) / 100 / 100) (fun _ => (1 : ℚ) / 2) =
      (nSubStep l).map nTube := by
  unfold BeanTube.subStep nSubStep
  simp only []
  rw [sanityCheck_map]
  by_cases hs : nSanity l
  · rw [if_pos hs, if_pos hs]
    have hbeans : (nTube l).beans = l.map nbeanToBean := rfl
    rw [hbeans, nPass_map l (nSanity_position_bounds l hs) 0 none]
    rw [show (⟨(nPass l).map nbeanToBean⟩ : BeanTube) = nTube (nPass l)
      from rfl]
    rw [sanityCheck_map]
    by_cases hs2 : nSanity (nPass l)
    · rw [if_pos hs2, if_pos hs2]
      rfl
    · rw [if_neg hs2, if_neg hs2]
      rfl
  · rw [if_neg hs, if_neg hs]
    rfl

/-- Folding the sub-step over any index list commutes with the mirror. -/
theorem foldlM_nStep : ∀ (ks : List ℕ) (l : List NBean),
    List.foldlM (fun cur _ => BeanTube.subStep cur ((981 : ℚ) / 100 / 100)
        (fun _ => (1 : ℚ) / 2)) (nTube l) ks =
      (List.foldlM (fun cur _ => nSubStep cur) l ks).map nTube
  | [], _ => rfl
  | k :: ks, l => by
    simp only [List.foldlM_cons]
    rw [subStep_nSubStep]
    cases hns : nSubStep l with
    | none => rfl
    | some l2 => exact foldlM_nStep ks l2

/-- One frame of the zero-fuzz run, exactly mirrored by `nStep`. -/
theorem step_nStep (l : List NBean) :
    (nTube l).step (981 / 100) (fun _ _ => (1 : ℚ) / 2) =
      (nStep l).map nTube := by
  unfold BeanTube.step nStep
  simp only []
  exact foldlM_nStep (List.range STEPS_PER_FRAME) l

/-- The mirrored start state decodes to the S1 start state. -/
theorem nTube_nInit : nTube nInit = tubeS1init := by
  unfold nTube nInit tubeS1init
  rw [List.map_map]
  refine congrArg BeanTube.mk (List.map_congr_left fun i hi => ?_)
  show nbeanToBean ⟨i * 1000000 + 2000000, 0⟩ = ⟨(i : ℚ), 0, (255, 255, 255)⟩
  rw [nbeanToBean_def (i * 1000000 + 2000000) 0]
  have h1 : ((i * 1000000 + 2000000 : ℕ) : ℚ) / 1000000 - 2 = (i : ℚ) := by
    push_cast
    ring
  have h2 : ((0 : ℕ) : ℚ) / 100000 = 0 := by norm_num
  rw [h1, h2]

/-- The mirrored final state decodes to the claimed S1 final state. -/
theorem nTube_nFinal : nTube nFinal = tubeS1final := by
  unfold nTube nFinal tubeS1final
  rw [List.map_map]
  refine congrArg BeanTube.mk (List.map_congr_left fun i hi => ?_)
  show nbeanToBean ⟨(79 + i) * 1000000, 0⟩ = ⟨77 + (i : ℚ), 0, (255, 255, 255)⟩
  rw [nbeanToBean_def ((79 + i) * 1000000) 0]
  have h1 : (((79 + i) * 1000000 : ℕ) : ℚ) / 1000000 - 2 = 77 + (i : ℚ) := by
    push_cast
    ring
  have h2 : ((0 : ℕ) : ℚ) / 100000 = 0 := by norm_num
  rw [h1, h2]

/-- The whole S1 run, exactly mirrored by `nRun`. -/
theorem runS1_nRun : ∀ n : ℕ, runS1 n = (nRun n).map nTube
  | 0 => by
    show some tubeS1init = some (nTube nInit)
    rw [nTube_nInit]
  | n + 1 => by
    show (runS1 n).bind _ = ((nRun n).bind nStep).map nTube
    rw [runS1_nRun n]
    cases nRun n with
    | none => rfl
    | some l => exact step_nStep l

set_option maxRecDepth 4000000 in
set_option maxHeartbeats 4000000 in
/-- 44 frames of the mirrored S1 run reach the mirrored final state
(evaluated exactly over the scaled naturals). -/
theorem nRun_44 : nRun 44 = some nFinal := by decide

/-- C2: starting from a tube of 41 beans at positions `0..40` with the
random fuzz fixed to zero, repeated `step(+9.81)` reaches, within 120
calls (in fact at call 44), a state where `is_stacked()` is true, every
bean velocity is exactly `0`, the rightmost bean sits exactly at
`TUBE_LEN - 1 = 117`, and the positions are exactly `77, 78, …, 117`. -/
theorem beans_s1_equilibrium :
    ∃ n, n ≤ 120 ∧ ∃ t, runS1 n = some t ∧ t.isStacked = true ∧
      (∀ b ∈ t.beans, b.velocity = 0) ∧
      t.beans.getLast?.map Bean.position = some ((TUBE_LEN : ℚ) - 1) ∧
      t.beans.map Bean.position =
        (List.range NUM_BEANS).map (fun i : ℕ => 77 + (i : ℚ)) := by
  refine ⟨44, by norm_num, tubeS1final, ?_, ?_, ?_, ?_, ?_⟩
  · rw [runS1_nRun 44, nRun_44]
    show some (nTube nFinal) = some tubeS1final
    rw [nTube_nFinal]
  · with_unfolding_all rfl
  · intro b hb
    unfold tubeS1final at hb
    simp only [List.mem_map] at hb
    obtain ⟨i, hi, rfl⟩ := hb
    rfl
  · with_unfolding_all rfl
  · show tubeS1final.beans.map Bean.position = _
    unfold tubeS1final
    rw [List.map_map]
    exact List.map_congr_left fun i hi => rfl

end Isopod
